import Mathlib

/-!
A verification development for the TEI critical-apparatus resolution engine
of the fv-website repository.  The engine parses `<app>` entries of a spine
document into `Apparatus` values carrying `PointerData` records, fetches the
referenced witness documents through a caching store, rewrites
string-range pointer targets into stable element anchors, dereferences every
remaining pointer, and injects back-reference attributes.

The embedding below follows the TypeScript source
(`src/tei-processing/helpers.ts` together with the store module) closely:

* JavaScript string and array primitives (`split`, `substr`,
  `String.replace`, `Array.from(new Set(...))`, `Array.prototype.find`) are
  embedded as executable Lean functions over `List Char` / `List`.
* DOM elements are embedded by the exact fields the code reads: a `<ptr>`
  element is its attribute list plus the tag/attributes of its parent and
  grandparent (`parentNode` accesses); a witness document is its list of
  elements (in document order), which is all that the id-lookup xpath and
  `setAttribute` touch.
* The browser xpath engine (`document.evaluate`) is external to the
  repository; phases that evaluate an arbitrary xpath take it as an explicit
  function argument `xe` returning the indices of the matched elements.  The
  one fixed xpath the code builds itself (the id lookup of
  `findElementByXmlId`) is embedded concretely.
* The mutable store (`FvStore.cache`, the static mock-id counter) becomes an
  explicit state record `FvState` threaded through the phases; exceptions
  become `Except` / error options.
-/

set_option maxHeartbeats 1000000

deriving instance DecidableEq for Except

/-- Prepend a character to the first piece of a split result. -/
def consHead (x : Char) : List (List Char) → List (List Char)
  | [] => [[x]]
  | r :: rs => (x :: r) :: rs

/-- Embedding of the JavaScript single-character string split: splits a
character list at every occurrence of the separator, keeping empty pieces. -/
def splitOnChar (c : Char) : List Char → List (List Char)
  | [] => [[]]
  | x :: xs => if x = c then [] :: splitOnChar c xs else consHead x (splitOnChar c xs)

/-- Embedding of the JavaScript `s.split(sep)` for a one-character separator,
as used for `target.split` at the hash character in `Apparatus.parsePointer`. -/
def jsSplit (s : String) (c : Char) : List String :=
  (splitOnChar c s.data).map String.mk

/-- Embedding of the JavaScript `s.substr(n)` (drop the first `n` characters),
as used for `witAttr.value.substr(2)`. -/
def jsSubstr (s : String) (n : Nat) : String :=
  String.mk (s.data.drop n)

/-- Embedding of the JavaScript replace of the regular expression /tei:/g by the empty string: remove every (leftmost,
non-overlapping) occurrence of the four characters `tei:`. -/
def stripTei : List Char → List Char
  | 't' :: 'e' :: 'i' :: ':' :: rest => stripTei rest
  | c :: rest => c :: stripTei rest
  | [] => []

/-- Numeric value of a digit list, used for the `\d+` capture groups of the
string-range regular expression (`parseInt` on an all-digit string). -/
def natOfDigits (l : List Char) : Nat :=
  l.foldl (fun n c => n * 10 + (c.toNat - 48)) 0

/-- Embedding of the JavaScript `parseInt` as the code uses it for the
optional ordinal attribute `n`: an optional minus sign followed by a digit
prefix; `NaN` (no digits) is modelled as `none`.  No claim depends on this
field. -/
def jsParseInt (s : String) : Option Int :=
  match s.data with
  | '-' :: rest =>
    if (rest.takeWhile Char.isDigit) = [] then none
    else some (-(Int.ofNat (natOfDigits (rest.takeWhile Char.isDigit))))
  | cs =>
    if (cs.takeWhile Char.isDigit) = [] then none
    else some (Int.ofNat (natOfDigits (cs.takeWhile Char.isDigit)))

/-- Embedding of `Array.from(new Set(allUrls))`: deduplicate keeping the
first occurrence of each element, preserving insertion order. -/
def dedupFirst (l : List String) : List String :=
  l.foldl (fun acc x => if acc.contains x then acc else acc ++ [x]) []

/-- Attribute lists of DOM elements, in document order (`name`, `value`). -/
abbrev Attrs := List (String × String)

/-- Embedding of `element.attributes.getNamedItem(name)` (first attribute
with the given name, or null), projected to the attribute value. -/
def getNamedItem (attrs : Attrs) (name : String) : Option String :=
  (attrs.find? (fun p => decide (p.1 = name))).map (fun p => p.2)

/-- Embedding of `element.setAttribute(name, value)`: overwrite the
attribute of that name (attribute names are unique on a DOM element), or
append a new one. -/
def setAttribute : Attrs → String → String → Attrs
  | [], name, value => [(name, value)]
  | (k, w) :: rest, name, value =>
    if k = name then (k, value) :: rest else (k, w) :: setAttribute rest name value

/-- A DOM element as seen through a `parentNode` access: its tag name and
attributes (all the code reads of `<rdg>` and `<rdgGrp>` elements). -/
structure RawElement where
  tagName : String
  attributes : Attrs
  deriving DecidableEq, Repr

/-- A `<ptr>` element of the spine document, together with its parent and
grandparent as the code reads them (`ptrElement.parentNode` and
`parentNode.parentNode`; `none` embeds a null `parentNode`). -/
structure RawPtr where
  attrs : Attrs
  parentNode : Option RawElement
  grandParentNode : Option RawElement
  deriving DecidableEq, Repr

/-- An `<app>` element of the spine document: its own attributes and the
result of `getElementsByTagName` for tag `ptr` on it (document order). -/
structure AppElement where
  attributes : Attrs
  ptrElements : List RawPtr
  deriving DecidableEq, Repr

/-- An element of a fetched witness document: the code only reads and writes
its attributes. -/
structure XmlElement where
  attributes : Attrs
  deriving DecidableEq, Repr

/-- A parsed XML document: its `<app>` elements (used for the spine chunk
document) and its full element list in document order (used for xpath
evaluation and id lookup in witness documents). -/
structure XmlDocument where
  appElements : List AppElement
  elements : List XmlElement
  deriving DecidableEq, Repr

/-- An edition descriptor from the store (`data/edition.ts` via the store
module): code, display name, available chunk numbers. -/
structure Edition where
  code : String
  name : String
  chunks : List Nat
  deriving DecidableEq, Repr

/-- The edition registry as constructed in the store singleton. -/
def FvStore.editions : List Edition :=
  [ { code := "1818", name := "1818", chunks := [1, 2, 3, 4, 5, 6, 7, 8, 9, 10] },
    { code := "1823", name := "1823", chunks := [1, 2, 3, 4, 5, 6, 7, 8, 9, 10] },
    { code := "1831", name := "1831", chunks := [1, 2, 3, 4, 5, 6, 7, 8, 9, 10] },
    { code := "Thomas", name := "Thomas", chunks := [1, 2, 3, 4, 5, 6, 7, 8, 9, 10] },
    { code := "MS", name := "MS", chunks := [7, 8, 9, 10] } ]

/-- Embedding of `FvStoreClass.getEdition`: `this.editions.find((ed) => ed.code === code)`.
`Array.prototype.find` returns `undefined` when nothing matches — it never
throws, so the result is an `Option` and there is no failure outcome. -/
def FvStore.getEdition (code : String) : Option Edition :=
  FvStore.editions.find? (fun ed => decide (ed.code = code))

/-- The `PointerData` record of the source.  Note `edition` is an `Option`:
at runtime `FvStore.getEdition` can return `undefined` (see
`FvStore.getEdition` above), despite the non-optional TypeScript annotation. -/
structure PointerData where
  ptrElement : RawPtr
  groupId : String
  edition : Option Edition
  referencedUrl : String
  referencedTarget : String
  dereferenced : Option (String × Nat) := none
  deriving DecidableEq, Repr

/-- The `Apparatus` class data: content of one `<app>` tag. -/
structure Apparatus where
  id : String
  n : Option Int
  element : AppElement
  pointers : List PointerData
  deriving DecidableEq, Repr

/-- Embedding of a JavaScript `array.map(f)` where `f` may throw: the first
exception propagates and aborts the whole map. -/
def mapThrow (f : α → Except String β) : List α → Except String (List β)
  | [] => .ok []
  | x :: xs =>
    match f x with
    | .error e => .error e
    | .ok y =>
      match mapThrow f xs with
      | .error e => .error e
      | .ok ys => .ok (y :: ys)

/-- Embedding of `Apparatus.parsePointer`.  The source wraps
`FvStore.getEdition` in a try/catch expecting it to throw on an unknown
witness code, but `Array.prototype.find` returns `undefined` instead of
throwing, so the catch branch is unreachable and `edition` is simply the
lookup result. -/
def Apparatus.parsePointer (rp : RawPtr) : Except String PointerData :=
  match rp.parentNode with
  | none => .error "Parent of <ptr> is not <rdg>"
  | some rdgElement =>
    if rdgElement.tagName ≠ "rdg" then .error "Parent of <ptr> is not <rdg>"
    else
      match getNamedItem rdgElement.attributes "wit" with
      | none => .error "<rdg> element does not have a wit attribute"
      | some witValue =>
        let editionCode := jsSubstr witValue 2
        let edition := FvStore.getEdition editionCode
        match rp.grandParentNode with
        | none => .error "Parent of <rdg> element is not <rdgGrp>"
        | some rdgGroupElement =>
          if rdgGroupElement.tagName ≠ "rdgGrp" then .error "Parent of <rdg> element is not <rdgGrp>"
          else
            match getNamedItem rdgGroupElement.attributes "xml:id" with
            | none => .error "<rdrGrp> has no xml:id"
            | some groupId =>
              match getNamedItem rp.attrs "target" with
              | none => .error "<ptr> element has not target attribute"
              | some targetValue =>
                match jsSplit targetValue '#' with
                | [u, f] =>
                  .ok { ptrElement := rp, groupId := groupId, edition := edition,
                        referencedUrl := u, referencedTarget := f, dereferenced := none }
                | _ => .error "Target is not well formatted. Expected uri#xpath"

/-- Embedding of the `Apparatus` constructor: read the required `xml:id`,
the optional ordinal `n`, then parse every descendant `<ptr>`. -/
def Apparatus.ofElement (element : AppElement) : Except String Apparatus :=
  match getNamedItem element.attributes "xml:id" with
  | none => .error "<app> tag with no xml:id"
  | some id =>
    let n := (getNamedItem element.attributes "n").bind jsParseInt
    match mapThrow Apparatus.parsePointer element.ptrElements with
    | .error e => .error e
    | .ok pointers => .ok { id := id, n := n, element := element, pointers := pointers }

/-- The string-range capture of the regular expression
`string-range\((?<xpath>.+),(?<start>\d+),(?<length>\d+)\)` (anchored at
both ends). -/
structure StringRange where
  xpath : String
  start : Nat
  length : Nat
  deriving DecidableEq, Repr

/-- Decidable embedding of the anchored string-range regular expression
match of `Spine.rewriteStringRanges`.  Because the two `\d+` groups cannot
contain a comma, the greedy `.+` xpath group always extends to the
second-to-last comma; so the match succeeds exactly when the text has the
shape `string-range(` xpath `,` digits `,` digits `)` with a nonempty xpath,
the two digit fields being the final two comma-separated pieces. -/
def parseStringRange (s : String) : Option StringRange :=
  let cs := s.data
  if ("string-range(".data).isPrefixOf cs && cs.getLast? == some ')' then
    let inner := (cs.drop 13).dropLast
    match (splitOnChar ',' inner).reverse with
    | lenPart :: startPart :: restRev =>
      let xpathPart := List.intercalate [','] restRev.reverse
      if decide (xpathPart ≠ []) && decide (startPart ≠ []) && startPart.all Char.isDigit &&
         decide (lenPart ≠ []) && lenPart.all Char.isDigit then
        some { xpath := String.mk xpathPart, start := natOfDigits startPart,
               length := natOfDigits lenPart }
      else none
    | _ => none
  else none

/-- The mutable process-wide state the pipeline reads and writes: the
document cache of the store singleton (an association list in fetch order),
the log of network fetches the cache has performed (for the idempotence and
single-flight properties), and the static mock-id counter of `Spine`. -/
structure FvState where
  cache : List (String × XmlDocument)
  fetches : List String
  mockElementCount : Nat
  deriving DecidableEq, Repr

/-- Lookup of a cached document by URL. -/
def cacheLookup (st : FvState) (url : String) : Option XmlDocument :=
  (st.cache.find? (fun p => decide (p.1 = url))).map (fun p => p.2)

/-- Embedding of `FvStore.cache.getXML(url)`: return the cached document if
present; otherwise fetch it from the network (`net` is the external world:
`none` embeds a network or parse failure, which the cache surfaces as a
rejected promise). -/
def cacheGetXML (net : String → Option XmlDocument) (st : FvState) (url : String) :
    Except String (XmlDocument × FvState) :=
  match cacheLookup st url with
  | some d => .ok (d, st)
  | none =>
    match net url with
    | some d =>
      .ok (d, { st with cache := st.cache ++ [(url, d)], fetches := st.fetches ++ [url] })
    | none => .error ("Failed to fetch " ++ url)

/-- Replace element `idx` of the document cached at `url` (the effect of a
`setAttribute` on an element handle of that document). -/
def updateCachedElement (st : FvState) (url : String) (idx : Nat) (el : XmlElement) : FvState :=
  { st with
    cache := st.cache.map (fun p => if p.1 = url then (p.1, { p.2 with elements := p.2.elements.set idx el }) else p) }

/-- Indices of the elements matched by the xpath `//*[@xml:id="x"]` that
`findElementByXmlId` builds: all elements whose `xml:id` attribute value is
the requested id, in document order. -/
def findIndicesByXmlId (doc : XmlDocument) (xmlId : String) : List Nat :=
  (List.range doc.elements.length).filter
    (fun i => decide (getNamedItem (doc.elements.getD i { attributes := [] }).attributes "xml:id" = some xmlId))

/-- Embedding of `findElementByXmlId`: the id lookup must match exactly one
element; zero or several matches throw. -/
def findElementByXmlId (doc : XmlDocument) (xmlId : String) : Except String Nat :=
  match findIndicesByXmlId doc xmlId with
  | [] => .error ("Pointer " ++ xmlId ++ " references an invalid element")
  | [i] => .ok i
  | _ => .error ("Pointer " ++ xmlId ++ " references more than one element")

/-- The `Spine` object state: chunk number, lazily set document and
apparatus list, and the `_initialized` flag. -/
structure Spine where
  chunkNumber : Nat
  xml : Option XmlDocument := none
  apps : Option (List Apparatus) := none
  initialized : Bool := false
  deriving DecidableEq, Repr

/-- The spine chunk URL built by `Spine.getXML` (two-digit zero-padded
chunk number on a fixed template). -/
def Spine.chunkUrl (chunkNumber : Nat) : String :=
  let chunkStr := if chunkNumber < 10 then "0" ++ toString chunkNumber else toString chunkNumber
  "https://raw.githubusercontent.com/PghFrankenstein/fv-data/master/standoff_Spine/spine_C" ++ chunkStr ++ ".xml"

/-- Embedding of `Spine.parseApps`: construct an `Apparatus` from every
`<app>` element; the first constructor exception aborts the phase. -/
def Spine.parseApps (xml : XmlDocument) : Except String (List Apparatus) :=
  mapThrow Apparatus.ofElement xml.appElements

/-- Fetch a list of URLs in order; the first failure aborts (the failing
`Promise.all` barrier), keeping the cache entries of the fetches that
completed. -/
def Spine.fetchUrls (net : String → Option XmlDocument) (st : FvState) :
    List String → FvState × Option String
  | [] => (st, none)
  | u :: us =>
    match cacheGetXML net st u with
    | .error e => (st, some e)
    | .ok (_, st1) => Spine.fetchUrls net st1 us

/-- Embedding of `Spine.fetchAllReferences`: collect, for every pointer, the
`referencedUrl`, deduplicate preserving first occurrence, fetch them all;
any failure fails the barrier. -/
def Spine.fetchAllReferences (net : String → Option XmlDocument) (st : FvState)
    (apps : List Apparatus) : FvState × Option String :=
  let allUrls := apps.foldl (fun acc app => acc ++ app.pointers.map (fun p => p.referencedUrl)) []
  Spine.fetchUrls net st (dedupFirst allUrls)

/-- Embedding of `Spine.rewriteStringRange`.  The match-count checks throw
before any mutation; on the success path the target element receives a
synthesized `xml:id` when it has none, then the pointer record is updated:
`referencedTarget` first (in memory), and only then the `target` attribute
of the `<ptr>` element is set to `referencedTarget + '#' + xmlId` — reading
the already-overwritten field, exactly as the source does. -/
def Spine.rewriteStringRange (net : String → Option XmlDocument)
    (xe : XmlDocument → String → List Nat) (st : FvState) (ptr : PointerData)
    (range : StringRange) : FvState × Except String PointerData :=
  match cacheGetXML net st ptr.referencedUrl with
  | .error e => (st, .error e)
  | .ok (targetDoc, st1) =>
    let patchedXPath := String.mk (stripTei range.xpath.data)
    let targetNodes := xe targetDoc patchedXPath
    if targetNodes.length = 0 then (st1, .error "string-range returned no nodes")
    else if targetNodes.length > 1 then (st1, .error "string-range returned more than one node")
    else
      let idx := targetNodes.headD 0
      let targetElement := targetDoc.elements.getD idx { attributes := [] }
      let withId :=
        match getNamedItem targetElement.attributes "xml:id" with
        | some v => (v, st1)
        | none =>
          let xmlId := "mock-id-" ++ toString st1.mockElementCount
          let st2 := { st1 with mockElementCount := st1.mockElementCount + 1 }
          (xmlId, updateCachedElement st2 ptr.referencedUrl idx
            { attributes := setAttribute targetElement.attributes "xml:id" xmlId })
      let xmlId := withId.1
      let ptr1 := { ptr with referencedTarget := xmlId }
      let newTarget := ptr1.referencedTarget ++ "#" ++ xmlId
      let ptr2 := { ptr1 with ptrElement := { ptr1.ptrElement with
        attrs := setAttribute ptr1.ptrElement.attrs "target" newTarget } }
      (withId.2, .ok ptr2)

/-- The per-apparatus pointer loop of `Spine.rewriteStringRanges`: pointers
whose target matches the string-range grammar are rewritten; a rewrite
failure puts the pointer in the invalid set, and the final list keeps, in
order, exactly the pointers not in that set. -/
def Spine.processPointers (net : String → Option XmlDocument)
    (xe : XmlDocument → String → List Nat) (st : FvState) :
    List PointerData → FvState × List PointerData
  | [] => (st, [])
  | ptr :: rest =>
    match parseStringRange ptr.referencedTarget with
    | none =>
      let r := Spine.processPointers net xe st rest
      (r.1, ptr :: r.2)
    | some range =>
      match Spine.rewriteStringRange net xe st ptr range with
      | (st1, .ok ptr') =>
        let r := Spine.processPointers net xe st1 rest
        (r.1, ptr' :: r.2)
      | (st1, .error _) =>
        let r := Spine.processPointers net xe st1 rest
        (r.1, r.2)

/-- Embedding of `Spine.rewriteStringRanges`: run the pointer loop on every
apparatus; the apparatus keeps its filtered pointer list.  The phase has no
failure outcome — every per-pointer exception is caught. -/
def Spine.rewriteStringRanges (net : String → Option XmlDocument)
    (xe : XmlDocument → String → List Nat) (st : FvState) :
    List Apparatus → FvState × List Apparatus
  | [] => (st, [])
  | app :: rest =>
    let r := Spine.processPointers net xe st app.pointers
    let r2 := Spine.rewriteStringRanges net xe r.1 rest
    (r2.1, { app with pointers := r.2 } :: r2.2)

/-- Dereference one pointer: fetch (from cache) its document, resolve its
`referencedTarget` as an id; the resolved element handle is the pair of the
URL and the element index. -/
def Spine.derefPointer (net : String → Option XmlDocument) (st : FvState)
    (ptr : PointerData) : FvState × Except String PointerData :=
  match cacheGetXML net st ptr.referencedUrl with
  | .error e => (st, .error e)
  | .ok (doc, st1) =>
    match findElementByXmlId doc ptr.referencedTarget with
    | .error e => (st1, .error e)
    | .ok idx => (st1, .ok { ptr with dereferenced := some (ptr.referencedUrl, idx) })

/-- The pointer loop of `Spine.dereferencePointers`: the first lookup
failure aborts, leaving the failing pointer and the rest of the list in
place (nothing is dropped). -/
def Spine.derefList (net : String → Option XmlDocument) (st : FvState) :
    List PointerData → FvState × List PointerData × Option String
  | [] => (st, [], none)
  | ptr :: rest =>
    match Spine.derefPointer net st ptr with
    | (st1, .error e) => (st1, ptr :: rest, some e)
    | (st1, .ok ptr') =>
      let r := Spine.derefList net st1 rest
      (r.1, ptr' :: r.2.1, r.2.2)

/-- Embedding of `Spine.dereferencePointers` over the apparatus list: the
first failure propagates (the chunk initialization aborts). -/
def Spine.dereferencePointers (net : String → Option XmlDocument) (st : FvState) :
    List Apparatus → FvState × List Apparatus × Option String
  | [] => (st, [], none)
  | app :: rest =>
    match Spine.derefList net st app.pointers with
    | (st1, ptrs, some e) => (st1, { app with pointers := ptrs } :: rest, some e)
    | (st1, ptrs, none) =>
      let r := Spine.dereferencePointers net st1 rest
      (r.1, { app with pointers := ptrs } :: r.2.1, r.2.2)

/-- One step of `Spine.addBackPointers`: a pointer without a resolved
element is logged and skipped (the `continue` branch of the source);
otherwise the resolved element receives the `app-ref` attribute naming the
owning apparatus.  In the pipeline a resolved handle always denotes an
element of a cached document, so the defensive fallthroughs are inert. -/
def Spine.backPtr (st : FvState) (appId : String) (ptr : PointerData) : FvState :=
  match ptr.dereferenced with
  | none => st
  | some h =>
    match cacheLookup st h.1 with
    | none => st
    | some doc =>
      let el := doc.elements.getD h.2 { attributes := [] }
      updateCachedElement st h.1 h.2 { attributes := setAttribute el.attributes "app-ref" appId }

/-- Embedding of `Spine.addBackPointers`: write the back-reference of every
dereferenced pointer, apparatus by apparatus, pointer by pointer.  The
phase is total — it never throws. -/
def Spine.addBackPointers (st : FvState) : List Apparatus → FvState
  | [] => st
  | app :: rest =>
    let st1 := app.pointers.foldl (fun s p => Spine.backPtr s app.id p) st
    Spine.addBackPointers st1 rest

/-- Embedding of `Spine.initialize` (named `init` here): return immediately
when already initialized, otherwise run the six phases in order.  The
result carries the final store state, the spine object (with whatever
fields were set before a failure, mirroring the in-place mutation of the
source), and the error if a fatal phase failed; the `initialized` flag is
set only after all phases completed. -/
def Spine.init (net : String → Option XmlDocument)
    (xe : XmlDocument → String → List Nat) (st : FvState) (sp : Spine) :
    FvState × Spine × Option String :=
  if sp.initialized then (st, sp, none)
  else
    match cacheGetXML net st (Spine.chunkUrl sp.chunkNumber) with
    | .error e => (st, sp, some e)
    | .ok (xml, st1) =>
      let sp1 := { sp with xml := some xml }
      match Spine.parseApps xml with
      | .error e => (st1, sp1, some e)
      | .ok apps =>
        let sp2 := { sp1 with apps := some apps }
        match Spine.fetchAllReferences net st1 apps with
        | (st2, some e) => (st2, sp2, some e)
        | (st2, none) =>
          let r4 := Spine.rewriteStringRanges net xe st2 apps
          let sp3 := { sp2 with apps := some r4.2 }
          match Spine.dereferencePointers net r4.1 r4.2 with
          | (st4, apps4, some e) => (st4, { sp3 with apps := some apps4 }, some e)
          | (st4, apps4, none) =>
            let st5 := Spine.addBackPointers st4 apps4
            (st5, { sp3 with apps := some apps4, initialized := true }, none)

/-- A handle `(url, index)` denotes an element of a cached document whose
index is in range. -/
def validHandle (st : FvState) (h : String × Nat) : Prop :=
  ∃ doc, cacheLookup st h.1 = some doc ∧ h.2 < doc.elements.length

/-- Read an attribute of the element a handle denotes in the current cache. -/
def elemAttr (st : FvState) (h : String × Nat) (name : String) : Option String :=
  (cacheLookup st h.1).bind
    (fun d => getNamedItem (d.elements.getD h.2 { attributes := [] }).attributes name)

/-- The id of the last apparatus, in processing order, having a pointer
whose resolved handle is `h`; its back reference is the one that survives
the overwrites of `Spine.addBackPointers`. -/
def lastClaimant (h : String × Nat) : List Apparatus → Option String
  | [] => none
  | a :: rest =>
    match lastClaimant h rest with
    | some i => some i
    | none =>
      if a.pointers.any (fun p => decide (p.dereferenced = some h)) then some a.id else none

/-- A `<ptr>` inside a well-formed `<rdg>`/`<rdgGrp>` context, the shape the
parser expects; the witness code, group id and target are parameters. -/
def mkPtrRaw (wit grp target : String) : RawPtr :=
  { attrs := [("target", target)],
    parentNode := some { tagName := "rdg", attributes := [("wit", wit)] },
    grandParentNode := some { tagName := "rdgGrp", attributes := [("xml:id", grp)] } }

/-- An xpath oracle matching exactly the first element of any document. -/
def xeFirst : XmlDocument → String → List Nat := fun _ _ => [0]

/-- An xpath oracle matching no element of any document. -/
def xeNone : XmlDocument → String → List Nat := fun _ _ => []

/-- A network with no reachable documents. -/
def netNone : String → Option XmlDocument := fun _ => none

/-- Example pointer whose target is a string-range expression into
`doc.xml`. -/
def ptrC1 : PointerData :=
  { ptrElement := mkPtrRaw "#f1818" "g1" "doc.xml#string-range(//tei:p,0,5)",
    groupId := "g1", edition := FvStore.getEdition "1818",
    referencedUrl := "doc.xml", referencedTarget := "string-range(//tei:p,0,5)" }

/-- Example witness document with a single element carrying `xml:id` `e1`. -/
def docC1 : XmlDocument :=
  { appElements := [], elements := [ { attributes := [("xml:id", "e1")] } ] }

/-- Store state in which `doc.xml` is already cached. -/
def stC1 : FvState := { cache := [("doc.xml", docC1)], fetches := [], mockElementCount := 0 }

/-- An `<app>` element whose required attributes are all present but empty,
with a single pointer whose target has an empty url part and whose witness
code is known. -/
def c4app : AppElement :=
  { attributes := [("xml:id", "")], ptrElements := [mkPtrRaw "#f1818" "" "#x"] }

/-- An `<app>` element with one well-formed pointer, as a builder for spine
documents: apparatus id and pointer target are parameters. -/
def mkAppEl (appId target : String) : AppElement :=
  { attributes := [("xml:id", appId)], ptrElements := [mkPtrRaw "#f1818" "g1" target] }

/-- A spine chunk document with two apparatuses pointing at the same
element `e1` of the same witness document. -/
def spineDoc3 : XmlDocument :=
  { appElements := [mkAppEl "a1" "w.xml#e1", mkAppEl "a2" "w.xml#e1"], elements := [] }

/-- The witness document for the aliasing scenario. -/
def wdoc3 : XmlDocument :=
  { appElements := [], elements := [ { attributes := [("xml:id", "e1")] } ] }

/-- A network serving the chunk-1 spine document and the witness document. -/
def net3 : String → Option XmlDocument := fun url =>
  if url = Spine.chunkUrl 1 then some spineDoc3
  else if url = "w.xml" then some wdoc3 else none

/-- A complete pipeline run on the aliasing scenario, from an empty cache
and a fresh chunk-1 spine. -/
def run3 : FvState × Spine × Option String :=
  Spine.init net3 xeNone { cache := [], fetches := [], mockElementCount := 0 }
    { chunkNumber := 1 }

/-- A pointer context whose witness code has no edition descriptor. -/
def rpBogus : RawPtr := mkPtrRaw "#fBOGUS" "g1" "doc.xml#abc"

/-- The pointer record the parser actually produces for `rpBogus`. -/
def pdBogus : PointerData :=
  { ptrElement := rpBogus, groupId := "g1", edition := none,
    referencedUrl := "doc.xml", referencedTarget := "abc", dereferenced := none }

/-- The apparatus value the parser produces for `c4app`: every claimed
non-empty field is in fact empty. -/
def c4result : Apparatus :=
  { id := "", n := none, element := c4app,
    pointers := [ { ptrElement := mkPtrRaw "#f1818" "" "#x", groupId := "",
                    edition := FvStore.getEdition "1818", referencedUrl := "",
                    referencedTarget := "x", dereferenced := none } ] }

/-- The string range captured from the target of `ptrC1`. -/
def rangeC1 : StringRange := { xpath := "//tei:p", start := 0, length := 5 }

/-- A pointer whose target is already a plain id (no range expression). -/
def plainPtr : PointerData :=
  { ptrElement := mkPtrRaw "#f1818" "g1" "doc.xml#e1", groupId := "g1",
    edition := FvStore.getEdition "1818", referencedUrl := "doc.xml",
    referencedTarget := "e1", dereferenced := none }

/-- An apparatus holding a failing range pointer followed by a plain one. -/
def appC6 : Apparatus :=
  { id := "appc6", n := none, element := mkAppEl "appc6" "doc.xml#e1",
    pointers := [ptrC1, plainPtr] }

/-- A pointer whose target id does not occur in its (cached) document. -/
def badDerefPtr : PointerData :=
  { ptrElement := mkPtrRaw "#f1818" "g1" "doc.xml#missing", groupId := "g1",
    edition := FvStore.getEdition "1818", referencedUrl := "doc.xml",
    referencedTarget := "missing", dereferenced := none }

/-- An apparatus holding the unresolvable pointer `badDerefPtr`. -/
def appC7 : Apparatus :=
  { id := "appc7", n := none, element := mkAppEl "appc7" "doc.xml#missing",
    pointers := [badDerefPtr] }

/-- Store state with the witness document `wdoc3` cached at `w.xml`. -/
def stW : FvState := { cache := [("w.xml", wdoc3)], fetches := [], mockElementCount := 0 }

/-- A pointer that reaches the back-reference phase without a resolved
element (`dereferenced` unset). -/
def ptrC5bad : PointerData :=
  { ptrElement := mkPtrRaw "#f1818" "g1" "w.xml#e1", groupId := "g1",
    edition := FvStore.getEdition "1818", referencedUrl := "w.xml",
    referencedTarget := "e1", dereferenced := none }

/-- A pointer resolved to the first element of `w.xml`. -/
def ptrC5good : PointerData :=
  { ptrElement := mkPtrRaw "#f1818" "g1" "w.xml#e1", groupId := "g1",
    edition := FvStore.getEdition "1818", referencedUrl := "w.xml",
    referencedTarget := "e1", dereferenced := some ("w.xml", 0) }

/-- An apparatus whose first pointer is unresolved and whose second is
resolved. -/
def appC5 : Apparatus :=
  { id := "a9", n := none, element := mkAppEl "a9" "w.xml#e1",
    pointers := [ptrC5bad, ptrC5good] }

/-- The state after the back-reference phase over `appC5`: only the
element of the resolved pointer received the back reference. -/
def stC5after : FvState :=
  { cache := [("w.xml",
      { appElements := [],
        elements := [ { attributes := [("xml:id", "e1"), ("app-ref", "a9")] } ] })],
    fetches := [], mockElementCount := 0 }

/-- Two one-pointer apparatuses both resolved to the same element of
`w.xml`. -/
def appW1 : Apparatus :=
  { id := "a1", n := none, element := mkAppEl "a1" "w.xml#e1",
    pointers := [ptrC5good] }

/-- Second apparatus claiming the same element as `appW1`. -/
def appW2 : Apparatus :=
  { id := "a2", n := none, element := mkAppEl "a2" "w.xml#e1",
    pointers := [ptrC5good] }

/-! ## Helper lemmas -/

theorem splitOnChar_ne_nil (c : Char) (l : List Char) : splitOnChar c l ≠ [] := by
  induction l with
  | nil => simp [splitOnChar]
  | cons x xs ih =>
    simp only [splitOnChar]
    by_cases hx : x = c
    · simp [hx]
    · rw [if_neg hx]
      cases h : splitOnChar c xs with
      | nil => simp [consHead]
      | cons r rs => simp [consHead]

theorem splitOnChar_not_mem {c : Char} {l : List Char} (h : c ∉ l) : splitOnChar c l = [l] := by
  induction l with
  | nil => rfl
  | cons x xs ih =>
    have hx : ¬ x = c := fun he => h (he ▸ List.mem_cons_self x xs)
    have hr := ih (fun hm => h (List.mem_cons_of_mem x hm))
    simp [splitOnChar, hr, hx, consHead]

theorem splitOnChar_append {c : Char} {u v : List Char} (h : c ∉ u) :
    splitOnChar c (u ++ c :: v) = u :: splitOnChar c v := by
  induction u with
  | nil => simp [splitOnChar]
  | cons x xs ih =>
    have hx : ¬ x = c := fun he => h (he ▸ List.mem_cons_self x xs)
    have hr := ih (fun hm => h (List.mem_cons_of_mem x hm))
    simp only [List.cons_append, splitOnChar, if_neg hx]
    change consHead x (splitOnChar c (xs ++ c :: v)) = (x :: xs) :: splitOnChar c v
    rw [hr]
    simp [consHead]

theorem splitOnChar_length (c : Char) (l : List Char) :
    (splitOnChar c l).length = l.count c + 1 := by
  induction l with
  | nil => simp [splitOnChar]
  | cons x xs ih =>
    simp only [splitOnChar]
    by_cases hx : x = c
    · subst hx
      rw [if_pos rfl, List.count_cons_self]
      simp only [List.length_cons]
      omega
    · rw [if_neg hx, List.count_cons_of_ne (fun he => hx he.symm)]
      cases h : splitOnChar c xs with
      | nil => exact absurd h (splitOnChar_ne_nil c xs)
      | cons r rs =>
        rw [h] at ih
        simp only [consHead, List.length_cons] at ih ⊢
        omega

theorem splitOnChar_singleton {c : Char} {l m : List Char}
    (h : splitOnChar c l = [m]) : l = m := by
  induction l generalizing m with
  | nil =>
    simp only [splitOnChar, List.cons.injEq, and_true] at h
    exact h
  | cons x xs ih =>
    simp only [splitOnChar] at h
    by_cases hx : x = c
    · rw [if_pos hx] at h
      injection h with h1 h2
      exact absurd h2 (splitOnChar_ne_nil c xs)
    · rw [if_neg hx] at h
      cases hr : splitOnChar c xs with
      | nil => exact absurd hr (splitOnChar_ne_nil c xs)
      | cons r rs =>
        rw [hr] at h
        simp only [consHead] at h
        injection h with h1 h2
        subst h2
        rw [show xs = r from ih hr]
        exact h1

theorem splitOnChar_pair {c : Char} {l u v : List Char}
    (h : splitOnChar c l = [u, v]) : l = u ++ c :: v := by
  induction l generalizing u with
  | nil => simp [splitOnChar] at h
  | cons x xs ih =>
    simp only [splitOnChar] at h
    by_cases hx : x = c
    · rw [if_pos hx] at h
      injection h with h1 h2
      subst hx
      rw [← h1, List.nil_append]
      exact congrArg (x :: ·) (splitOnChar_singleton h2)
    · rw [if_neg hx] at h
      cases hr : splitOnChar c xs with
      | nil => exact absurd hr (splitOnChar_ne_nil c xs)
      | cons r rs =>
        rw [hr] at h
        simp only [consHead] at h
        injection h with h1 h2
        subst h2
        rw [← h1, show xs = r ++ c :: v from ih hr]
        simp

theorem getNamedItem_setAttribute_self (l : Attrs) (n v : String) :
    getNamedItem (setAttribute l n v) n = some v := by
  induction l with
  | nil => simp [setAttribute, getNamedItem, List.find?]
  | cons kv rest ih =>
    obtain ⟨k, w⟩ := kv
    by_cases hk : k = n
    · subst hk
      simp [setAttribute, getNamedItem, List.find?]
    · simp only [setAttribute, if_neg hk]
      simpa [getNamedItem, List.find?, hk] using ih

theorem getNamedItem_setAttribute_ne (l : Attrs) (n v m : String) (h : ¬ m = n) :
    getNamedItem (setAttribute l n v) m = getNamedItem l m := by
  have hnm : ¬ n = m := fun he => h he.symm
  induction l with
  | nil => simp [setAttribute, getNamedItem, List.find?, hnm]
  | cons kv rest ih =>
    obtain ⟨k, w⟩ := kv
    by_cases hk : k = n
    · subst hk
      simp [setAttribute, getNamedItem, List.find?, hnm]
    · simp only [setAttribute, if_neg hk]
      by_cases hkm : k = m
      · subst hkm
        simp [getNamedItem, List.find?]
      · simpa [getNamedItem, List.find?, hkm] using ih

theorem mapThrow_ok_mem {α β : Type} {f : α → Except String β} {l : List α} {l' : List β}
    (h : mapThrow f l = .ok l') : ∀ y ∈ l', ∃ x ∈ l, f x = .ok y := by
  induction l generalizing l' with
  | nil =>
    simp only [mapThrow, Except.ok.injEq] at h
    subst h
    simp
  | cons x xs ih =>
    simp only [mapThrow] at h
    cases hf : f x with
    | error e => rw [hf] at h; cases h
    | ok y0 =>
      rw [hf] at h
      cases hr : mapThrow f xs with
      | error e => rw [hr] at h; cases h
      | ok ys =>
        rw [hr] at h
        obtain rfl : y0 :: ys = l' := by simpa using h
        intro y hy
        rcases List.mem_cons.mp hy with rfl | hmem
        · exact ⟨x, List.mem_cons_self x xs, hf⟩
        · obtain ⟨x', hx', hfx'⟩ := ih hr y hmem
          exact ⟨x', List.mem_cons_of_mem x hx', hfx'⟩

theorem cacheGetXML_cached {net : String → Option XmlDocument} {st : FvState}
    {url : String} {d : XmlDocument} (h : cacheLookup st url = some d) :
    cacheGetXML net st url = .ok (d, st) := by
  simp [cacheGetXML, h]

/-! ## Claim theorems -/

/-- C8: once a chunk is Ready (`initialized` set by a completed first run),
a second call of the initialization entry point returns immediately: the
store state is returned unchanged (its fetch log in particular, so no new
fetch is issued), the spine object with its apparatus list, pointers and
documents is unchanged, no phase runs and no error is produced. -/
theorem c8_init_idempotent_once_ready (net : String → Option XmlDocument)
    (xe : XmlDocument → String → List Nat) (st : FvState) (sp : Spine)
    (h : sp.initialized = true) :
    Spine.init net xe st sp = (st, sp, none) := by
  simp [Spine.init, h]

/-- Witness for C8 at a concrete Ready spine and store state. -/
theorem c8_init_idempotent_once_ready_witness :
    ({ chunkNumber := 1, xml := none, apps := none, initialized := true } : Spine).initialized = true ∧
    Spine.init net3 xeNone stC1
      { chunkNumber := 1, xml := none, apps := none, initialized := true } =
      (stC1, { chunkNumber := 1, xml := none, apps := none, initialized := true }, none) :=
  ⟨rfl, c8_init_idempotent_once_ready net3 xeNone stC1
    { chunkNumber := 1, xml := none, apps := none, initialized := true } rfl⟩

/-- C2 (code bug evidence): for a witness code with no matching edition the
registry lookup returns nothing rather than failing, and parsing the
pointer succeeds with no edition instead of failing with an UnknownEdition
error — the catch branch of the source around `FvStore.getEdition` is dead
code because `Array.prototype.find` never throws. -/
theorem c2_unknown_edition_not_raised_bug :
    FvStore.getEdition "BOGUS" = none ∧
    Apparatus.parsePointer rpBogus = Except.ok pdBogus ∧
    pdBogus.edition = none := by
  refine ⟨by decide, by decide, by decide⟩

/-- C1 (code bug evidence): after a successful string-range rewrite the
in-memory `referencedTarget` is the element id `e1`, but the `target`
attribute written back onto the `<ptr>` element is `e1#e1`, not the claimed
`referencedUrl + '#' + id` (`doc.xml#e1`): the source builds the attribute
from the already-overwritten `referencedTarget` field. -/
theorem c1_target_attribute_bug :
    (Spine.processPointers netNone xeFirst stC1 [ptrC1]).2.map
      (fun p => getNamedItem p.ptrElement.attrs "target") = [some "e1#e1"] ∧
    (Spine.processPointers netNone xeFirst stC1 [ptrC1]).2.map
      (fun p => p.referencedTarget) = ["e1"] ∧
    ptrC1.referencedUrl ++ "#" ++ "e1" = "doc.xml#e1" ∧
    ("e1#e1" : String) ≠ "doc.xml#e1" := by
  refine ⟨by decide, by decide, by decide, by decide⟩

/-- C4 counterexample: an `<app>` whose required attributes are present but
empty parses successfully into an apparatus whose id, pointer groupId and
pointer referencedUrl are all the empty string — refuting the claim that a
successful parse guarantees them non-empty. -/
theorem c4_empty_fields_counterexample :
    Apparatus.ofElement c4app = Except.ok c4result ∧
    c4result.id = "" ∧
    c4result.pointers.map (fun p => p.groupId) = [""] ∧
    c4result.pointers.map (fun p => p.referencedUrl) = [""] := by
  refine ⟨by decide, by decide, by decide, by decide⟩

theorem jsSplit_pair {t : String} {c : Char} {u f : String}
    (h : jsSplit t c = [u, f]) : t.data = u.data ++ c :: f.data := by
  unfold jsSplit at h
  cases hs : splitOnChar c t.data with
  | nil => exact absurd hs (splitOnChar_ne_nil c t.data)
  | cons a rest =>
    rw [hs] at h
    cases rest with
    | nil => simp at h
    | cons b rest2 =>
      cases rest2 with
      | nil =>
        simp only [List.map_cons, List.map_nil] at h
        injection h with h1 h2
        injection h2 with h3 h4
        have ha : a = u.data := by rw [← h1]
        have hb : b = f.data := by rw [← h3]
        subst ha
        subst hb
        exact splitOnChar_pair hs
      | cons d rest3 => simp at h

theorem parsePointer_ok_spec {rp : RawPtr} {p : PointerData}
    (h : Apparatus.parsePointer rp = .ok p) :
    p.ptrElement = rp ∧ p.dereferenced = none ∧
    ∃ rdg grp w t,
      rp.parentNode = some rdg ∧ rdg.tagName = "rdg" ∧
      getNamedItem rdg.attributes "wit" = some w ∧
      p.edition = FvStore.getEdition (jsSubstr w 2) ∧
      rp.grandParentNode = some grp ∧ grp.tagName = "rdgGrp" ∧
      getNamedItem grp.attributes "xml:id" = some p.groupId ∧
      getNamedItem rp.attrs "target" = some t ∧
      t.data = p.referencedUrl.data ++ '#' :: p.referencedTarget.data := by
  unfold Apparatus.parsePointer at h
  split at h
  · exact Except.noConfusion h
  case _ rdgElement hpn =>
    split at h
    · exact Except.noConfusion h
    case _ htag =>
      split at h
      · exact Except.noConfusion h
      case _ witValue hwit =>
        split at h
        · exact Except.noConfusion h
        case _ grpElement hgp =>
          split at h
          · exact Except.noConfusion h
          case _ hgtag =>
            split at h
            · exact Except.noConfusion h
            case _ groupId hgid =>
              split at h
              · exact Except.noConfusion h
              case _ targetValue htarget =>
                split at h
                case _ u f hsplit =>
                  injection h with h1
                  subst h1
                  refine ⟨rfl, rfl, rdgElement, grpElement, witValue, targetValue,
                    hpn, not_not.mp htag, hwit, rfl, hgp, not_not.mp hgtag, hgid, htarget, ?_⟩
                  exact jsSplit_pair hsplit
                case _ =>
                  exact Except.noConfusion h

/-- C4 (amended): for every Apparatus produced by a successful parse, the
required attributes were present and the fields are exactly their values —
`id` is the value of the present `xml:id` attribute of the `<app>` element,
and every pointer comes from a `<ptr>` child whose `<rdg>` parent carried a
`wit` attribute, whose `<rdgGrp>` grandparent carried the `xml:id` giving
`groupId`, and whose present `target` attribute splits at its single `#`
into `referencedUrl` and `referencedTarget`; all of these values may be
empty strings, and `edition` is the registry lookup result for the witness
code, which may be absent.  (The original non-emptiness/non-nullity claim
is refuted by `c4_empty_fields_counterexample`.) -/
theorem c4_parse_fields_from_attributes (e : AppElement) (a : Apparatus)
    (h : Apparatus.ofElement e = .ok a) :
    getNamedItem e.attributes "xml:id" = some a.id ∧
    ∀ p ∈ a.pointers, ∃ rp ∈ e.ptrElements,
      Apparatus.parsePointer rp = .ok p ∧ p.ptrElement = rp ∧
      ∃ rdg grp w t,
        rp.parentNode = some rdg ∧ rdg.tagName = "rdg" ∧
        getNamedItem rdg.attributes "wit" = some w ∧
        p.edition = FvStore.getEdition (jsSubstr w 2) ∧
        rp.grandParentNode = some grp ∧ grp.tagName = "rdgGrp" ∧
        getNamedItem grp.attributes "xml:id" = some p.groupId ∧
        getNamedItem rp.attrs "target" = some t ∧
        t.data = p.referencedUrl.data ++ '#' :: p.referencedTarget.data := by
  unfold Apparatus.ofElement at h
  split at h
  · exact Except.noConfusion h
  case _ id hid =>
    split at h
    · exact Except.noConfusion h
    case _ ptrs hptrs =>
      injection h with h1
      subst h1
      refine ⟨hid, ?_⟩
      intro p hp
      obtain ⟨rp, hrp, hok⟩ := mapThrow_ok_mem hptrs p hp
      obtain ⟨hel, _, spec⟩ := parsePointer_ok_spec hok
      exact ⟨rp, hrp, hok, hel, spec⟩

/-- Witness for C4 (amended) at the concrete apparatus of the
counterexample scenario. -/
theorem c4_parse_fields_from_attributes_witness :
    getNamedItem c4app.attributes "xml:id" = some c4result.id ∧
    ∀ p ∈ c4result.pointers, ∃ rp ∈ c4app.ptrElements,
      Apparatus.parsePointer rp = .ok p ∧ p.ptrElement = rp ∧
      ∃ rdg grp w t,
        rp.parentNode = some rdg ∧ rdg.tagName = "rdg" ∧
        getNamedItem rdg.attributes "wit" = some w ∧
        p.edition = FvStore.getEdition (jsSubstr w 2) ∧
        rp.grandParentNode = some grp ∧ grp.tagName = "rdgGrp" ∧
        getNamedItem grp.attributes "xml:id" = some p.groupId ∧
        getNamedItem rp.attrs "target" = some t ∧
        t.data = p.referencedUrl.data ++ '#' :: p.referencedTarget.data :=
  c4_parse_fields_from_attributes c4app c4result (by decide)

/-- C9: in a well-formed context, a `<ptr>` target with exactly one `#`
parses into the part before the `#` as `referencedUrl` and the part after
it as `referencedTarget`, and a target with no `#` or more than one `#`
fails with the malformed-target error. -/
theorem c9_target_split_at_hash (wit grp : String) :
    (∀ u f : List Char, '#' ∉ u → '#' ∉ f →
      Apparatus.parsePointer (mkPtrRaw wit grp (String.mk (u ++ '#' :: f))) =
        Except.ok { ptrElement := mkPtrRaw wit grp (String.mk (u ++ '#' :: f)),
                    groupId := grp, edition := FvStore.getEdition (jsSubstr wit 2),
                    referencedUrl := String.mk u, referencedTarget := String.mk f,
                    dereferenced := none }) ∧
    (∀ t : String, t.data.count '#' ≠ 1 →
      Apparatus.parsePointer (mkPtrRaw wit grp t) =
        Except.error "Target is not well formatted. Expected uri#xpath") := by
  constructor
  · intro u f hu hf
    have hsplit : jsSplit (String.mk (u ++ '#' :: f)) '#' = [String.mk u, String.mk f] := by
      unfold jsSplit
      show (splitOnChar '#' (u ++ '#' :: f)).map String.mk = _
      rw [splitOnChar_append hu, splitOnChar_not_mem hf]
      simp
    simp only [Apparatus.parsePointer, mkPtrRaw, getNamedItem, List.find?, decide_True,
      ne_eq, not_true, if_false, Option.map_some', hsplit]
  · intro t hcount
    have hlen : (splitOnChar '#' t.data).length ≠ 2 := by
      rw [splitOnChar_length]
      omega
    simp only [Apparatus.parsePointer, mkPtrRaw, getNamedItem, List.find?]
    cases hs : splitOnChar '#' t.data with
    | nil => exact absurd hs (splitOnChar_ne_nil '#' t.data)
    | cons a rest =>
      cases rest with
      | nil => simp [jsSplit, hs]
      | cons b rest2 =>
        cases rest2 with
        | nil =>
          rw [hs] at hlen
          simp at hlen
        | cons d rest3 => simp [jsSplit, hs]

/-- Witness for C9: the spec example `doc.xml#abc123`, a target with no
`#`, and a target with two `#`. -/
theorem c9_target_split_at_hash_witness :
    ('#' ∉ "doc.xml".data ∧ '#' ∉ "abc123".data ∧
      Apparatus.parsePointer (mkPtrRaw "#f1818" "g1" (String.mk ("doc.xml".data ++ '#' :: "abc123".data))) =
        Except.ok { ptrElement := mkPtrRaw "#f1818" "g1" (String.mk ("doc.xml".data ++ '#' :: "abc123".data)),
                    groupId := "g1", edition := FvStore.getEdition (jsSubstr "#f1818" 2),
                    referencedUrl := String.mk "doc.xml".data,
                    referencedTarget := String.mk "abc123".data,
                    dereferenced := none }) ∧
    ("nohash".data.count '#' ≠ 1 ∧
      Apparatus.parsePointer (mkPtrRaw "#f1818" "g1" "nohash") =
        Except.error "Target is not well formatted. Expected uri#xpath") ∧
    ("a#b#c".data.count '#' ≠ 1 ∧
      Apparatus.parsePointer (mkPtrRaw "#f1818" "g1" "a#b#c") =
        Except.error "Target is not well formatted. Expected uri#xpath") :=
  ⟨⟨by decide, by decide,
    (c9_target_split_at_hash "#f1818" "g1").1 "doc.xml".data "abc123".data (by decide) (by decide)⟩,
   ⟨by decide, (c9_target_split_at_hash "#f1818" "g1").2 "nohash" (by decide)⟩,
   ⟨by decide, (c9_target_split_at_hash "#f1818" "g1").2 "a#b#c" (by decide)⟩⟩

theorem rewriteStringRange_fail_aux {net : String → Option XmlDocument}
    {xe : XmlDocument → String → List Nat} {st : FvState} {ptr : PointerData}
    {range : StringRange} {doc : XmlDocument}
    (hdoc : cacheLookup st ptr.referencedUrl = some doc)
    (hn : (xe doc (String.mk (stripTei range.xpath.data))).length ≠ 1) :
    Spine.rewriteStringRange net xe st ptr range =
      (st, .error (if (xe doc (String.mk (stripTei range.xpath.data))).length = 0
                   then "string-range returned no nodes"
                   else "string-range returned more than one node")) := by
  unfold Spine.rewriteStringRange
  rw [cacheGetXML_cached hdoc]
  by_cases h0 : (xe doc (String.mk (stripTei range.xpath.data))).length = 0
  · simp [h0]
  · have h1 : (xe doc (String.mk (stripTei range.xpath.data))).length > 1 := by omega
    simp [h0, h1]

theorem processPointers_plain {net : String → Option XmlDocument}
    {xe : XmlDocument → String → List Nat} {st : FvState} {l : List PointerData}
    (h : ∀ q ∈ l, parseStringRange q.referencedTarget = none) :
    Spine.processPointers net xe st l = (st, l) := by
  induction l with
  | nil => rfl
  | cons q rest ih =>
    have hq := h q (List.mem_cons_self q rest)
    have hrest := ih (fun x hx => h x (List.mem_cons_of_mem q hx))
    simp [Spine.processPointers, hq, hrest]

theorem processPointers_append_plain {net : String → Option XmlDocument}
    {xe : XmlDocument → String → List Nat} {st : FvState}
    {pre rest : List PointerData}
    (h : ∀ q ∈ pre, parseStringRange q.referencedTarget = none) :
    Spine.processPointers net xe st (pre ++ rest) =
      ((Spine.processPointers net xe st rest).1,
        pre ++ (Spine.processPointers net xe st rest).2) := by
  induction pre with
  | nil => simp
  | cons q qs ih =>
    have hq := h q (List.mem_cons_self q qs)
    have hqs := ih (fun x hx => h x (List.mem_cons_of_mem q hx))
    simp [Spine.processPointers, hq, hqs]

/-- C6: in the range-rewrite phase, a pointer whose range expression
matches the grammar but whose patched xpath matches zero or more than one
element is removed from the pointer list of its apparatus; the phase returns
normally (it has no failure outcome, so chunk initialization proceeds), the
store state is unchanged, and every other pointer of the apparatus — here
all remaining pointers are plain-id pointers, which the phase leaves
untouched — stays in the list in order. -/
theorem c6_range_failure_drops_only_that_pointer
    (net : String → Option XmlDocument) (xe : XmlDocument → String → List Nat)
    (st : FvState) (app : Apparatus) (pre post : List PointerData)
    (p : PointerData) (r : StringRange) (doc : XmlDocument)
    (happ : app.pointers = pre ++ p :: post)
    (hpre : ∀ q ∈ pre, parseStringRange q.referencedTarget = none)
    (hpost : ∀ q ∈ post, parseStringRange q.referencedTarget = none)
    (hp : parseStringRange p.referencedTarget = some r)
    (hdoc : cacheLookup st p.referencedUrl = some doc)
    (hn : (xe doc (String.mk (stripTei r.xpath.data))).length ≠ 1) :
    Spine.rewriteStringRanges net xe st [app] =
      (st, [{ app with pointers := pre ++ post }]) := by
  have hmid : Spine.processPointers net xe st (p :: post) = (st, post) := by
    simp only [Spine.processPointers, hp]
    rw [rewriteStringRange_fail_aux hdoc hn]
    simp [processPointers_plain hpost]
  have hall : Spine.processPointers net xe st (pre ++ p :: post) = (st, pre ++ post) := by
    rw [processPointers_append_plain hpre, hmid]
  simp [Spine.rewriteStringRanges, happ, hall]

/-- Witness for C6: a two-pointer apparatus whose range pointer fails
(xpath matches nothing) loses exactly that pointer; the plain pointer
remains and the state is unchanged. -/
theorem c6_range_failure_drops_only_that_pointer_witness :
    Spine.rewriteStringRanges netNone xeNone stC1 [appC6] =
      (stC1, [{ appC6 with pointers := [] ++ [plainPtr] }]) :=
  c6_range_failure_drops_only_that_pointer netNone xeNone stC1 appC6 [] [plainPtr]
    ptrC1 rangeC1 docC1 (by decide) (by simp) (by decide) (by decide) (by decide) (by decide)

/-- C10: when the range rewrite fails because the patched xpath matched
zero or more than one element, the failure is visible only as the thrown
error (hence, in the surrounding loop, as the drop of the pointer from the
in-memory list): the returned store state is exactly the input state — the
target document is unmodified, no `xml:id` is synthesized (the mock counter
is unchanged) — and no rewritten pointer is produced, so the `<ptr>`
`target` attribute of the `<ptr>` element is untouched. -/
theorem c10_range_failure_frame
    (net : String → Option XmlDocument) (xe : XmlDocument → String → List Nat)
    (st : FvState) (p : PointerData) (r : StringRange) (doc : XmlDocument)
    (hdoc : cacheLookup st p.referencedUrl = some doc)
    (hn : (xe doc (String.mk (stripTei r.xpath.data))).length ≠ 1) :
    (Spine.rewriteStringRange net xe st p r).1 = st ∧
    ∃ e, (Spine.rewriteStringRange net xe st p r).2 = Except.error e := by
  rw [rewriteStringRange_fail_aux hdoc hn]
  exact ⟨rfl, _, rfl⟩

/-- Witness for C10 at the concrete failing range pointer. -/
theorem c10_range_failure_frame_witness :
    (Spine.rewriteStringRange netNone xeNone stC1 ptrC1 rangeC1).1 = stC1 ∧
    ∃ e, (Spine.rewriteStringRange netNone xeNone stC1 ptrC1 rangeC1).2 = Except.error e :=
  c10_range_failure_frame netNone xeNone stC1 ptrC1 rangeC1 docC1 (by decide) (by decide)

theorem findElementByXmlId_error_of_ne_one {d : XmlDocument} {t : String}
    (h : (findIndicesByXmlId d t).length ≠ 1) :
    ∃ e, findElementByXmlId d t = .error e := by
  unfold findElementByXmlId
  cases hs : findIndicesByXmlId d t with
  | nil => exact ⟨_, rfl⟩
  | cons i rest =>
    cases rest with
    | nil => rw [hs] at h; simp at h
    | cons j rest2 => exact ⟨_, rfl⟩

theorem findElementByXmlId_ok_length {d : XmlDocument} {t : String} {i : Nat}
    (h : findElementByXmlId d t = .ok i) :
    (findIndicesByXmlId d t).length = 1 := by
  unfold findElementByXmlId at h
  cases hs : findIndicesByXmlId d t with
  | nil => rw [hs] at h; exact Except.noConfusion h
  | cons j rest =>
    cases rest with
    | nil => simp [hs]
    | cons k rest2 => rw [hs] at h; exact Except.noConfusion h

theorem derefPointer_cached {net : String → Option XmlDocument} {st : FvState}
    {ptr : PointerData} {d : XmlDocument}
    (h : cacheLookup st ptr.referencedUrl = some d) :
    Spine.derefPointer net st ptr =
      (st, match findElementByXmlId d ptr.referencedTarget with
           | .error e => .error e
           | .ok idx => .ok { ptr with dereferenced := some (ptr.referencedUrl, idx) }) := by
  unfold Spine.derefPointer
  rw [cacheGetXML_cached h]
  cases hf : findElementByXmlId d ptr.referencedTarget <;> simp [hf]

theorem derefList_cached (net : String → Option XmlDocument) (st : FvState)
    (l : List PointerData)
    (hc : ∀ q ∈ l, ∃ d, cacheLookup st q.referencedUrl = some d) :
    (Spine.derefList net st l).1 = st ∧
    (Spine.derefList net st l).2.1.map (fun q => q.referencedTarget) =
      l.map (fun q => q.referencedTarget) ∧
    ((∃ p ∈ l, ∃ doc, cacheLookup st p.referencedUrl = some doc ∧
        (findIndicesByXmlId doc p.referencedTarget).length ≠ 1) →
      (Spine.derefList net st l).2.2.isSome) := by
  induction l with
  | nil =>
    refine ⟨rfl, rfl, ?_⟩
    rintro ⟨p, hp, _⟩
    cases hp
  | cons q rest ih =>
    obtain ⟨d, hd⟩ := hc q (List.mem_cons_self q rest)
    have hrest := ih (fun x hx => hc x (List.mem_cons_of_mem q hx))
    simp only [Spine.derefList]
    rw [derefPointer_cached hd]
    cases hf : findElementByXmlId d q.referencedTarget with
    | error e =>
      refine ⟨rfl, rfl, fun _ => rfl⟩
    | ok idx =>
      refine ⟨hrest.1, ?_, ?_⟩
      · simp only [List.map_cons]
        exact congrArg (List.cons q.referencedTarget) hrest.2.1
      · rintro ⟨p, hp, doc, hdoc, hn⟩
        rcases List.mem_cons.mp hp with rfl | hmem
        · rw [hd] at hdoc
          injection hdoc with hded
          subst hded
          exact absurd (findElementByXmlId_ok_length hf) hn
        · exact hrest.2.2 ⟨p, hmem, doc, hdoc, hn⟩

theorem dereferencePointers_cached (net : String → Option XmlDocument) (st : FvState)
    (apps : List Apparatus)
    (hc : ∀ a ∈ apps, ∀ q ∈ a.pointers, ∃ d, cacheLookup st q.referencedUrl = some d) :
    (Spine.dereferencePointers net st apps).1 = st ∧
    (Spine.dereferencePointers net st apps).2.1.map
        (fun a => a.pointers.map (fun q => q.referencedTarget)) =
      apps.map (fun a => a.pointers.map (fun q => q.referencedTarget)) ∧
    ((∃ a ∈ apps, ∃ p ∈ a.pointers, ∃ doc, cacheLookup st p.referencedUrl = some doc ∧
        (findIndicesByXmlId doc p.referencedTarget).length ≠ 1) →
      (Spine.dereferencePointers net st apps).2.2.isSome) := by
  induction apps with
  | nil =>
    refine ⟨rfl, rfl, ?_⟩
    rintro ⟨a, ha, _⟩
    cases ha
  | cons a rest ih =>
    have hl := derefList_cached net st a.pointers (hc a (List.mem_cons_self a rest))
    have hrest := ih (fun x hx => hc x (List.mem_cons_of_mem a hx))
    rcases hrun : Spine.derefList net st a.pointers with ⟨st1, ptrs, err⟩
    rw [hrun] at hl
    obtain rfl : st1 = st := hl.1
    simp only [Spine.dereferencePointers, hrun]
    cases err with
    | some e =>
      refine ⟨rfl, ?_, fun _ => rfl⟩
      simp only [List.map_cons]
      exact congrArg₂ List.cons hl.2.1 rfl
    | none =>
      refine ⟨hrest.1, ?_, ?_⟩
      · simp only [List.map_cons]
        exact congrArg₂ List.cons hl.2.1 hrest.2.1
      · rintro ⟨x, hx, p, hp, doc, hdoc, hn⟩
        rcases List.mem_cons.mp hx with rfl | hmem
        · have := hl.2.2 ⟨p, hp, doc, hdoc, hn⟩
          simp at this
        · exact hrest.2.2 ⟨x, hmem, p, hp, doc, hdoc, hn⟩

theorem init_error_not_ready (net : String → Option XmlDocument)
    (xe : XmlDocument → String → List Nat) (st : FvState) (sp : Spine)
    (h : (Spine.init net xe st sp).2.2.isSome) :
    (Spine.init net xe st sp).2.1.initialized = false := by
  by_cases hi : sp.initialized
  · simp [Spine.init, hi] at h
  · have hfalse : sp.initialized = false := by
      revert hi
      cases sp.initialized <;> simp
    cases h1 : cacheGetXML net st (Spine.chunkUrl sp.chunkNumber) with
    | error e => simp [Spine.init, hfalse, h1]
    | ok pr =>
      obtain ⟨xml, st1⟩ := pr
      cases h2 : Spine.parseApps xml with
      | error e => simp [Spine.init, hfalse, h1, h2]
      | ok apps =>
        rcases h3 : Spine.fetchAllReferences net st1 apps with ⟨st2, err2⟩
        cases err2 with
        | some e => simp [Spine.init, hfalse, h1, h2, h3]
        | none =>
          rcases h4 : Spine.rewriteStringRanges net xe st2 apps with ⟨st3, apps3⟩
          rcases h5 : Spine.dereferencePointers net st3 apps3 with ⟨st4, apps4, err4⟩
          cases err4 with
          | some e => simp [Spine.init, hfalse, h1, h2, h3, h4, h5]
          | none =>
            simp [Spine.init, hfalse, h1, h2, h3, h4, h5] at h

/-- C7: in the dereference phase, a remaining pointer whose stable-id
lookup in its referenced document finds zero or more than one element makes
the phase fail with an error (the pointer is not dropped: every pointer
list survives unchanged), and any initialization run that ends with an
error leaves the chunk not Ready (`initialized` stays false). -/
theorem c7_deref_mismatch_fatal (net : String → Option XmlDocument) (st : FvState)
    (apps : List Apparatus)
    (hc : ∀ a ∈ apps, ∀ q ∈ a.pointers, ∃ d, cacheLookup st q.referencedUrl = some d)
    (a : Apparatus) (ha : a ∈ apps) (p : PointerData) (hp : p ∈ a.pointers)
    (doc : XmlDocument) (hdoc : cacheLookup st p.referencedUrl = some doc)
    (hn : (findIndicesByXmlId doc p.referencedTarget).length ≠ 1) :
    (Spine.dereferencePointers net st apps).2.2.isSome ∧
    (Spine.dereferencePointers net st apps).2.1.map
        (fun x => x.pointers.map (fun q => q.referencedTarget)) =
      apps.map (fun x => x.pointers.map (fun q => q.referencedTarget)) ∧
    ∀ (xe : XmlDocument → String → List Nat) (st' : FvState) (sp : Spine),
      (Spine.init net xe st' sp).2.2.isSome →
      (Spine.init net xe st' sp).2.1.initialized = false := by
  have hd := dereferencePointers_cached net st apps hc
  exact ⟨hd.2.2 ⟨a, ha, p, hp, doc, hdoc, hn⟩, hd.2.1,
    fun xe st' sp h => init_error_not_ready net xe st' sp h⟩

/-- Witness for C7: a cached document without the looked-up id makes the
dereference phase fail, pointer lists survive, and an erroring
initialization leaves a fresh spine not Ready. -/
theorem c7_deref_mismatch_fatal_witness :
    (Spine.dereferencePointers netNone stC1 [appC7]).2.2.isSome ∧
    (Spine.dereferencePointers netNone stC1 [appC7]).2.1.map
        (fun x => x.pointers.map (fun q => q.referencedTarget)) =
      [appC7].map (fun x => x.pointers.map (fun q => q.referencedTarget)) ∧
    (Spine.init netNone xeNone stC1 { chunkNumber := 1 }).2.1.initialized = false := by
  have h := c7_deref_mismatch_fatal netNone stC1 [appC7]
    (by
      intro a ha q hq
      rcases List.mem_singleton.mp ha with rfl
      rcases List.mem_singleton.mp hq with rfl
      exact ⟨docC1, by decide⟩)
    appC7 (List.mem_singleton.mpr rfl) badDerefPtr (by decide) docC1 (by decide) (by decide)
  exact ⟨h.1, h.2.1, h.2.2 xeNone stC1 { chunkNumber := 1 } (by decide)⟩

/-- C5 counterexample: a pointer that reaches the back-reference phase
without a resolved element does not make the phase raise or assert — the
phase (which is total: it has no failure outcome) logs, skips the pointer
and continues, here writing the back reference of the later resolved
pointer of the same apparatus and returning normally. -/
theorem c5_unresolved_pointer_skipped_counterexample :
    Spine.addBackPointers stW [appC5] = stC5after ∧
    ptrC5bad.dereferenced = none ∧ ptrC5bad ∈ appC5.pointers := by
  refine ⟨by decide, by decide, by decide⟩

/-- C5 (amended): a pointer still present in the pointer list of its apparatus
but without a resolved element is skipped by the back-reference phase as a
recoverable condition: the phase completes normally and writes nothing for
such pointers — in particular, on apparatuses whose pointers are all
unresolved it leaves the store state entirely unchanged — instead of
raising or asserting. -/
theorem c5_unresolved_pointer_skipped (st : FvState) (apps : List Apparatus)
    (h : ∀ a ∈ apps, ∀ p ∈ a.pointers, p.dereferenced = none) :
    Spine.addBackPointers st apps = st := by
  induction apps generalizing st with
  | nil => rfl
  | cons a rest ih =>
    have hfold : ∀ (l : List PointerData), (∀ p ∈ l, p.dereferenced = none) →
        ∀ s, l.foldl (fun s p => Spine.backPtr s a.id p) s = s := by
      intro l
      induction l with
      | nil => intro _ s; rfl
      | cons q qs ihq =>
        intro hl s
        have hq : q.dereferenced = none := hl q (List.mem_cons_self q qs)
        simp only [List.foldl_cons, Spine.backPtr, hq]
        exact ihq (fun x hx => hl x (List.mem_cons_of_mem q hx)) s
    simp only [Spine.addBackPointers,
      hfold a.pointers (h a (List.mem_cons_self a rest)) st]
    exact ih st (fun x hx => h x (List.mem_cons_of_mem a hx))

/-- Witness for C5 (amended): an apparatus whose only pointer is
unresolved leaves the state untouched. -/
theorem c5_unresolved_pointer_skipped_witness :
    Spine.addBackPointers stC1 [appC7] = stC1 :=
  c5_unresolved_pointer_skipped stC1 [appC7]
    (by
      intro a ha p hp
      rcases List.mem_singleton.mp ha with rfl
      rcases List.mem_singleton.mp hp with rfl
      rfl)

theorem getD_set_ne {α : Type} (l : List α) (j i : Nat) (e dflt : α) (h : ¬ i = j) :
    (l.set j e).getD i dflt = l.getD i dflt := by
  induction l generalizing i j with
  | nil => rfl
  | cons x xs ih =>
    cases j with
    | zero =>
      cases i with
      | zero => exact absurd rfl h
      | succ i2 => rfl
    | succ j2 =>
      cases i with
      | zero => rfl
      | succ i2 =>
        simp only [List.set_cons_succ, List.getD_cons_succ]
        exact ih _ _ (by omega)

theorem getD_set_self {α : Type} (l : List α) (j : Nat) (e dflt : α) (h : j < l.length) :
    (l.set j e).getD j dflt = e := by
  induction l generalizing j with
  | nil => simp at h
  | cons x xs ih =>
    cases j with
    | zero => rfl
    | succ j2 =>
      simp only [List.set_cons_succ, List.getD_cons_succ]
      exact ih j2 (by simpa using h)

theorem cacheLookup_update_other {st : FvState} {url : String} {idx : Nat}
    {el : XmlElement} {url' : String} (h : ¬ url' = url) :
    cacheLookup (updateCachedElement st url idx el) url' = cacheLookup st url' := by
  obtain ⟨cache, fetches, mock⟩ := st
  unfold cacheLookup updateCachedElement
  simp only
  induction cache with
  | nil => rfl
  | cons p rest ih =>
    obtain ⟨k, d⟩ := p
    simp only [List.map_cons]
    by_cases hk : k = url
    · have hku : ¬ k = url' := fun he => h (he ▸ hk)
      rw [if_pos hk, List.find?_cons_of_neg _ (by simp [hku]),
        List.find?_cons_of_neg _ (by simp [hku])]
      exact ih
    · by_cases hku : k = url'
      · rw [if_neg hk, List.find?_cons_of_pos _ (by simp [hku]),
          List.find?_cons_of_pos _ (by simp [hku])]
      · rw [if_neg hk, List.find?_cons_of_neg _ (by simp [hku]),
          List.find?_cons_of_neg _ (by simp [hku])]
        exact ih

theorem cacheLookup_update_self (st : FvState) (url : String) (idx : Nat)
    (el : XmlElement) :
    cacheLookup (updateCachedElement st url idx el) url =
      (cacheLookup st url).map (fun d => { d with elements := d.elements.set idx el }) := by
  obtain ⟨cache, fetches, mock⟩ := st
  unfold cacheLookup updateCachedElement
  simp only
  induction cache with
  | nil => rfl
  | cons p rest ih =>
    obtain ⟨k, d⟩ := p
    simp only [List.map_cons]
    by_cases hk : k = url
    · rw [if_pos hk, List.find?_cons_of_pos _ (by simp [hk]),
        List.find?_cons_of_pos _ (by simp [hk])]
      rfl
    · rw [if_neg hk, List.find?_cons_of_neg _ (by simp [hk]),
        List.find?_cons_of_neg _ (by simp [hk])]
      exact ih

theorem validHandle_update (st : FvState) (url : String) (idx : Nat)
    (el : XmlElement) {h : String × Nat} (hv : validHandle st h) :
    validHandle (updateCachedElement st url idx el) h := by
  obtain ⟨doc, hdoc, hlt⟩ := hv
  by_cases hu : h.1 = url
  · refine ⟨{ doc with elements := doc.elements.set idx el }, ?_, ?_⟩
    · rw [hu, cacheLookup_update_self, ← hu, hdoc]
      rfl
    · simpa using hlt
  · exact ⟨doc, by rw [cacheLookup_update_other hu]; exact hdoc, hlt⟩

theorem backPtr_valid (st : FvState) (appId : String) (q : PointerData)
    {h : String × Nat} (hv : validHandle st h) :
    validHandle (Spine.backPtr st appId q) h := by
  unfold Spine.backPtr
  cases q.dereferenced with
  | none => exact hv
  | some h2 =>
    dsimp only
    cases hl : cacheLookup st h2.1 with
    | none => exact hv
    | some doc => exact validHandle_update st h2.1 h2.2 _ hv

theorem elemAttr_update_other (st : FvState) (url : String) (idx : Nat)
    (el : XmlElement) (h : String × Nat) (name : String)
    (hne : ¬ (url, idx) = h) :
    elemAttr (updateCachedElement st url idx el) h name = elemAttr st h name := by
  unfold elemAttr
  by_cases hu : h.1 = url
  · have hidx : ¬ h.2 = idx := by
      intro he
      exact hne (Prod.ext hu.symm he.symm)
    rw [hu, cacheLookup_update_self, ← hu]
    cases hl : cacheLookup st h.1 with
    | none => rfl
    | some doc =>
      simp only [Option.map_some', Option.some_bind]
      rw [getD_set_ne _ _ _ _ _ hidx]
  · rw [cacheLookup_update_other hu]

theorem backPtr_attr_other (st : FvState) (appId : String) (q : PointerData)
    (h : String × Nat) (hne : ¬ q.dereferenced = some h) :
    elemAttr (Spine.backPtr st appId q) h "app-ref" = elemAttr st h "app-ref" := by
  unfold Spine.backPtr
  cases hd : q.dereferenced with
  | none => rfl
  | some h2 =>
    dsimp only
    cases hl : cacheLookup st h2.1 with
    | none => rfl
    | some doc =>
      have hne2 : ¬ (h2.1, h2.2) = h := by
        intro he
        exact hne (by rw [hd, ← he])
      exact elemAttr_update_other st h2.1 h2.2 _ h "app-ref" hne2

theorem backPtr_attr_self (st : FvState) (appId : String) (q : PointerData)
    (h : String × Nat) (hq : q.dereferenced = some h) (hv : validHandle st h) :
    elemAttr (Spine.backPtr st appId q) h "app-ref" = some appId := by
  obtain ⟨doc, hdoc, hlt⟩ := hv
  unfold Spine.backPtr
  rw [hq]
  obtain ⟨u, i⟩ := h
  simp only at hdoc hlt
  dsimp only
  rw [hdoc]
  unfold elemAttr
  dsimp only
  rw [cacheLookup_update_self, hdoc]
  simp only [Option.map_some', Option.some_bind]
  rw [getD_set_self _ _ _ _ hlt]
  exact getNamedItem_setAttribute_self _ _ _

theorem foldl_backPtr_attr (appId : String) (l : List PointerData) (h : String × Nat) :
    ∀ (st : FvState), validHandle st h →
      validHandle (l.foldl (fun s p => Spine.backPtr s appId p) st) h ∧
      elemAttr (l.foldl (fun s p => Spine.backPtr s appId p) st) h "app-ref" =
        (if l.any (fun p => decide (p.dereferenced = some h)) then some appId
         else elemAttr st h "app-ref") := by
  induction l with
  | nil =>
    intro st hv
    exact ⟨hv, by simp⟩
  | cons q rest ih =>
    intro st hv
    have hv1 : validHandle (Spine.backPtr st appId q) h := backPtr_valid st appId q hv
    have hrest := ih (Spine.backPtr st appId q) hv1
    refine ⟨hrest.1, ?_⟩
    simp only [List.foldl_cons] at hrest ⊢
    rw [hrest.2]
    by_cases hq : q.dereferenced = some h
    · have hself := backPtr_attr_self st appId q h hq hv
      have hany : (q :: rest).any (fun p => decide (p.dereferenced = some h)) = true := by
        simp [hq]
      rw [hany, if_pos rfl]
      by_cases hr : rest.any (fun p => decide (p.dereferenced = some h)) = true
      · rw [if_pos hr]
      · rw [if_neg hr, hself]
    · have hother := backPtr_attr_other st appId q h hq
      have hany : (q :: rest).any (fun p => decide (p.dereferenced = some h)) =
          rest.any (fun p => decide (p.dereferenced = some h)) := by
        simp [hq]
      rw [hany, hother]

theorem addBackPointers_attr (h : String × Nat) (apps : List Apparatus) :
    ∀ (st : FvState), validHandle st h →
      validHandle (Spine.addBackPointers st apps) h ∧
      elemAttr (Spine.addBackPointers st apps) h "app-ref" =
        (match lastClaimant h apps with
         | some i => some i
         | none => elemAttr st h "app-ref") := by
  induction apps with
  | nil =>
    intro st hv
    exact ⟨hv, by simp [lastClaimant, Spine.addBackPointers]⟩
  | cons a rest ih =>
    intro st hv
    have hf := foldl_backPtr_attr a.id a.pointers h st hv
    have hr := ih (a.pointers.foldl (fun s p => Spine.backPtr s a.id p) st) hf.1
    refine ⟨hr.1, ?_⟩
    simp only [Spine.addBackPointers]
    rw [hr.2]
    simp only [lastClaimant]
    cases hlc : lastClaimant h rest with
    | some i => rfl
    | none =>
      rw [hf.2]
      by_cases ha : a.pointers.any (fun p => decide (p.dereferenced = some h)) = true
      · rw [if_pos ha, if_pos ha]
      · rw [if_neg ha, if_neg ha]

theorem lastClaimant_isSome_of_claim {h : String × Nat} {apps : List Apparatus}
    (hc : ∃ a ∈ apps, ∃ p ∈ a.pointers, p.dereferenced = some h) :
    ∃ i, lastClaimant h apps = some i := by
  induction apps with
  | nil =>
    obtain ⟨a, ha, _⟩ := hc
    cases ha
  | cons a rest ih =>
    obtain ⟨x, hx, p, hp, hd⟩ := hc
    rcases List.mem_cons.mp hx with rfl | hmem
    · simp only [lastClaimant]
      cases hlc : lastClaimant h rest with
      | some i => exact ⟨i, rfl⟩
      | none =>
        have hany : x.pointers.any (fun q => decide (q.dereferenced = some h)) = true :=
          List.any_eq_true.mpr ⟨p, hp, decide_eq_true hd⟩
        exact ⟨x.id, by rw [if_pos hany]⟩
    · obtain ⟨i, hi⟩ := ih ⟨x, hmem, p, hp, hd⟩
      exact ⟨i, by simp only [lastClaimant]; rw [hi]⟩

/-- C3 (amended): after the back-reference phase, every element reachable
through the resolved handle of a surviving pointer carries the back-reference
attribute, and its value is the id of the *last* apparatus in processing
order having a pointer resolved to that element — apparatuses processed
later overwrite the link, so the value equals the id of the owning apparatus
exactly when that apparatus is the last claimant (in particular whenever a
single apparatus claims the element).  The original claim, that the value
always equals the id of the owning apparatus, fails under aliasing
(`c3_backref_owner_counterexample`). -/
theorem c3_backref_last_claimant (st : FvState) (apps : List Apparatus)
    (h : String × Nat) (hv : validHandle st h)
    (hclaim : ∃ a ∈ apps, ∃ p ∈ a.pointers, p.dereferenced = some h) :
    ∃ i, lastClaimant h apps = some i ∧
      elemAttr (Spine.addBackPointers st apps) h "app-ref" = some i := by
  obtain ⟨i, hi⟩ := lastClaimant_isSome_of_claim hclaim
  have ha := addBackPointers_attr h apps st hv
  refine ⟨i, hi, ?_⟩
  rw [ha.2, hi]

/-- Witness for C3 (amended): two apparatuses resolved to the same element;
the attribute carries the id of the last one. -/
theorem c3_backref_last_claimant_witness :
    ∃ i, lastClaimant ("w.xml", 0) [appW1, appW2] = some i ∧
      elemAttr (Spine.addBackPointers stW [appW1, appW2]) ("w.xml", 0) "app-ref" = some i :=
  c3_backref_last_claimant stW [appW1, appW2] ("w.xml", 0)
    ⟨wdoc3, by decide, by decide⟩
    ⟨appW1, by decide, ptrC5good, by decide, by decide⟩

/-- C3 counterexample: a full, successful six-phase run in which two
apparatuses (ids `a1` and `a2`) resolve their pointers to the same element;
afterwards the element reached through the surviving pointer of `a1`
carries the back-reference `a2`, not the id of its owning apparatus — so
the claim fails as stated. -/
theorem c3_backref_owner_counterexample :
    run3.2.2 = none ∧
    run3.2.1.initialized = true ∧
    (run3.2.1.apps.getD []).map (fun a => (a.id, a.pointers.map (fun p => p.dereferenced))) =
      [("a1", [some ("w.xml", 0)]), ("a2", [some ("w.xml", 0)])] ∧
    elemAttr run3.1 ("w.xml", 0) "app-ref" = some "a2" ∧
    ¬ ("a2" : String) = "a1" := by
  refine ⟨by decide, by decide, by decide, by decide, by decide⟩
